import Mathlib

/-!
Verification of the Matrix conversation reconstruction pipeline of
briefly (src/main.py, class MatrixClient): the two-pass formatting of a
raw batch of room events (MatrixClient._format_messages, lines 140-212)
followed by the stable timestamp sort (MatrixClient.get_messages, lines
214-218).

The embedding models Python values flowing through the pipeline as a
JSON-like inductive type J, with the Python semantics the code relies
on made explicit:
  - dict.get with a default (attribute error on non-dicts),
  - truthiness of arbitrary values,
  - the `in` operator (key membership on dicts, substring on strings),
  - dict-key equality (hashable values only; bool compares equal to int),
  - str.split("$")[-1][:8] for the short hashes,
  - the try/except around the per-message body (a failing step skips
    that event, errors outside the try are fatal for the whole call),
  - list.sort(key=...) as a stable sort by the timestamp field.
Python's list.sort is Timsort, which agrees with every stable sort for a
total preorder on the keys; it is modelled by a stable insertion sort.
Sorting succeeds when the timestamp keys are pairwise comparable (all
numeric, where Python bool counts as int, or all strings); mixed or
non-comparable keys raise TypeError in Python and are modelled as an
error (list-valued keys, which Python would compare elementwise, are
conservatively included in the error case).
-/

/-- JSON-like values, standing for the Python objects the pipeline
manipulates (the parse of the wire response). -/
inductive J where
  | null : J
  | bool : Bool → J
  | num : Int → J
  | str : String → J
  | arr : List J → J
  | obj : List (String × J) → J

/-- Last-occurrence key lookup in an object, matching the dict Python's
json parser builds (duplicate keys keep the last value; ordinary dicts
have unique keys, where this is plain lookup). -/
def lookupLast (kvs : List (String × J)) (k : String) : Option J :=
  match kvs with
  | [] => none
  | (k', v) :: rest =>
    match lookupLast rest k with
    | some w => some w
    | none => if k' = k then some v else none

/-- Python errors the pipeline can raise. -/
inductive PyErr where
  | attributeError : PyErr
  | typeError : PyErr
deriving DecidableEq

/-- Python dict.get(k, d): the value at k, the default d when the key is
absent, and an AttributeError when the receiver is not a dict. -/
def jget (j : J) (k : String) (d : J) : Except PyErr J :=
  match j with
  | .obj kvs => .ok ((lookupLast kvs k).getD d)
  | _ => .error .attributeError

/-- Python truthiness of a value. -/
def J.truthy : J → Bool
  | .null => false
  | .bool b => b
  | .num n => n != 0
  | .str s => s != ""
  | .arr xs => !xs.isEmpty
  | .obj kvs => !kvs.isEmpty

/-- Python == against a string literal (the only == the pipeline uses):
true exactly for the equal string. -/
def J.eqStr : J → String → Bool
  | .str t, s => t == s
  | _, _ => false

/-- Whether a Python value is hashable, i.e. usable as a dict key
(lists and dicts are not). -/
def J.hashable : J → Bool
  | .arr _ => false
  | .obj _ => false
  | _ => true

/-- Python == between hashable values, as used for dict-key identity:
bool compares equal to the corresponding int. -/
def pyEq : J → J → Bool
  | .null, .null => true
  | .bool a, .bool b => a == b
  | .bool a, .num n => (if a then (1 : Int) else 0) == n
  | .num n, .bool a => n == (if a then (1 : Int) else 0)
  | .num m, .num n => m == n
  | .str s, .str t => s == t
  | _, _ => false

/-- Substring test on character lists, for Python's `needle in haystack`
on strings. -/
def containsSub (needle : List Char) : List Char → Bool
  | [] => needle.isEmpty
  | c :: rest => needle.isPrefixOf (c :: rest) || containsSub needle rest

/-- Python's `k in x` for a string k: key membership on dicts, substring
test on strings, elementwise == on lists, TypeError otherwise. -/
def inOp (k : String) : J → Except PyErr Bool
  | .obj kvs => .ok (kvs.any (fun p => p.1 == k))
  | .str s => .ok (containsSub k.data s.data)
  | .arr xs => .ok (xs.any (fun x => x.eqStr k))
  | _ => .error .typeError

/-- The suffix of a character list after its last dollar sign (the whole
list when there is none): Python s.split(quoted dollar)[-1]. -/
def afterLastDollar (cs : List Char) : List Char :=
  cs.foldl (fun acc c => if c = '$' then [] else acc ++ [c]) []

/-- The short-hash core of src/main.py lines 189 and 193: the first 8
characters of the substring after the last dollar sign; the sentinel
"unknown" for the empty string (the code reaches the split only on
truthy, i.e. non-empty, identifiers). -/
def shortHash (s : String) : String :=
  if s = "" then "unknown" else String.mk ((afterLastDollar s.data).take 8)

/-- Python x.split(dollar)[-1][:8] as applied to a value: an
AttributeError unless x is a string (split is a str method). -/
def splitHash : J → Except PyErr J
  | .str s => .ok (.str (String.mk ((afterLastDollar s.data).take 8)))
  | _ => .error .attributeError

/-- The display-name mapping built by the first pass (a Python dict from
sender to display name), read through Python dict-key equality. -/
def DNames : Type := J → Option J

/-- The empty display-name dict (src/main.py line 142). -/
def emptyNames : DNames := fun _ => none

/-- Writing display_names[sender] = d: later writes to pyEq-equal keys
overwrite earlier ones. -/
def setName (m : DNames) (sender d : J) : DNames :=
  fun x => if pyEq x sender then some d else m x

/-- Python display_names.get(sender): null when the key is absent, a
TypeError when the key is unhashable (src/main.py line 165, inside the
try block). -/
def dgetName (m : DNames) (k : J) : Except PyErr J :=
  if k.hashable then .ok ((m k).getD .null) else .error .typeError

/-- One step of the first pass over the batch (src/main.py lines
143-149): a member event with a truthy sender and truthy displayname
writes the dict (raising TypeError, uncaught, on an unhashable sender);
everything else leaves it unchanged. Errors here abort the whole call:
this loop has no try/except. -/
def pass1Step (acc : DNames) (e : J) : Except PyErr DNames :=
  match jget e "type" .null with
  | .error er => .error er
  | .ok t =>
    if t.eqStr "m.room.member" then
      match jget e "sender" .null with
      | .error er => .error er
      | .ok sender =>
        match jget e "content" (.obj []) with
        | .error er => .error er
        | .ok content =>
          match jget content "displayname" .null with
          | .error er => .error er
          | .ok d =>
            if sender.truthy && d.truthy then
              if sender.hashable then .ok (setName acc sender d)
              else .error .typeError
            else .ok acc
    else .ok acc

/-- The first pass over the batch, in batch order (src/main.py lines
142-149). -/
def pass1 (acc : DNames) : List J → Except PyErr DNames
  | [] => .ok acc
  | e :: rest =>
    match pass1Step acc e with
    | .error er => .error er
    | .ok acc' => pass1 acc' rest

/-- The formatted message record appended at src/main.py lines 195-207.
Field values are the Python objects the code stores (is_reply and
is_thread are genuine booleans by construction). -/
structure Msg where
  nickname : J
  display_name : J
  sender : J
  body : J
  timestamp : J
  is_reply : Bool
  is_thread : Bool
  reply_to_event_id : J
  event_hash : J
  reply_to_hash : J
  raw_event : J

/-- Reply/thread context resolution (src/main.py lines 177-182): thread
context takes priority; a reply reads event_id out of the m.in_reply_to
value (an AttributeError if that value is not a dict). -/
def resolveRelated (relates_to : J) (is_reply is_thread : Bool) : Except PyErr J :=
  if is_thread then jget relates_to "event_id" .null
  else if is_reply then
    match jget relates_to "m.in_reply_to" (.obj []) with
    | .error er => .error er
    | .ok irt => jget irt "event_id" .null
  else .ok .null

/-- The event_hash expression (src/main.py line 189): split and truncate
a truthy event_id, the "unknown" sentinel otherwise. -/
def hashExpr (event_id : J) : Except PyErr J :=
  if event_id.truthy then splitHash event_id else .ok (.str "unknown")

/-- The reply_to_hash assignment (src/main.py lines 190-193): None
unless reply_to_event_id is truthy; the inner conditional repeats the
same test, its "unknown" branch being unreachable. -/
def replyHashExpr (reply_to_event_id : J) : Except PyErr J :=
  if reply_to_event_id.truthy then
    if reply_to_event_id.truthy then splitHash reply_to_event_id
    else .ok (.str "unknown")
  else .ok .null

/-- The body of the try block for one message event (src/main.py lines
157-207), in source order; any error is caught by the except at line
208. -/
def tryBody (names : DNames) (e : J) : Except PyErr Msg :=
  match jget e "sender" (.str "Unknown") with
  | .error er => .error er
  | .ok sender =>
  match dgetName names sender with
  | .error er => .error er
  | .ok display_name =>
  match jget e "content" (.obj []) with
  | .error er => .error er
  | .ok content =>
  match jget content "body" (.str "") with
  | .error er => .error er
  | .ok body =>
  match jget content "m.relates_to" (.obj []) with
  | .error er => .error er
  | .ok relates_to =>
  match inOp "m.in_reply_to" relates_to with
  | .error er => .error er
  | .ok is_reply =>
  match jget relates_to "rel_type" .null with
  | .error er => .error er
  | .ok rel_type =>
  match resolveRelated relates_to is_reply (rel_type.eqStr "m.thread") with
  | .error er => .error er
  | .ok reply_to_event_id =>
  match jget e "origin_server_ts" (.num 0) with
  | .error er => .error er
  | .ok timestamp =>
  match jget e "event_id" (.str "") with
  | .error er => .error er
  | .ok event_id =>
  match hashExpr event_id with
  | .error er => .error er
  | .ok event_hash =>
  match replyHashExpr reply_to_event_id with
  | .error er => .error er
  | .ok reply_to_hash =>
  .ok {
    nickname := sender
    display_name := display_name
    sender := sender
    body := body
    timestamp := timestamp
    is_reply := is_reply
    is_thread := rel_type.eqStr "m.thread"
    reply_to_event_id := reply_to_event_id
    event_hash := event_hash
    reply_to_hash := reply_to_hash
    raw_event := e
  }

/-- The second pass over the batch (src/main.py lines 152-210): message
events are formatted and appended in batch order; a failure inside the
try block skips just that event; the type check itself is outside the
try, so its failure (a non-dict event) aborts the whole call. -/
def pass2 (names : DNames) (acc : List Msg) : List J → Except PyErr (List Msg)
  | [] => .ok acc
  | e :: rest =>
    match jget e "type" .null with
    | .error er => .error er
    | .ok t =>
      if t.eqStr "m.room.message" then
        match tryBody names e with
        | .ok m => pass2 names (acc ++ [m]) rest
        | .error _ => pass2 names acc rest
      else pass2 names acc rest

/-- MatrixClient._format_messages (src/main.py lines 140-212) on the
chunk list of the response. -/
def format_messages (chunk : List J) : Except PyErr (List Msg) :=
  match pass1 emptyNames chunk with
  | .error er => .error er
  | .ok names => pass2 names [] chunk

/-- The relation classification of the spec, read off a formatted
message by the precedence the code applies when it resolves the related
event (thread wins over reply, src/main.py lines 177-182) and the
renderer repeats (lines 383-388). -/
inductive Relation where
  | plain : Relation
  | reply : Relation
  | threaded : Relation
deriving DecidableEq

/-- The resolved relation of a formatted message. -/
def Msg.relation (m : Msg) : Relation :=
  if m.is_thread then .threaded else if m.is_reply then .reply else .plain

/-- Presence of a related event: the reply_to_event_id field is not
Python None. -/
def Msg.relatedPresent (m : Msg) : Bool :=
  match m.reply_to_event_id with
  | .null => false
  | _ => true

/-- Sort keys Python compares with numeric <: ints and bools. -/
def numericKey : J → Bool
  | .num _ => true
  | .bool _ => true
  | _ => false

/-- Sort keys Python compares with string <. -/
def strKey : J → Bool
  | .str _ => true
  | _ => false

/-- The numeric value of a sort key (bool counts as 0 or 1). -/
def numVal : J → Int
  | .num n => n
  | .bool b => if b then 1 else 0
  | _ => 0

/-- The string value of a sort key. -/
def strVal : J → String
  | .str s => s
  | _ => ""

/-- Lexicographic non-strict order on character lists by code point:
Python's <= on strings. -/
def strLeB : List Char → List Char → Bool
  | [], _ => true
  | _ :: _, [] => false
  | c :: cs, d :: ds => if c = d then strLeB cs ds else decide (c < d)

/-- Comparison class of a sort key: numerics before strings before the
rest. Beyond the sortable cases the order is a don't-care total
preorder; the pipeline never sorts those. -/
def keyClass : J → Nat
  | .num _ => 0
  | .bool _ => 0
  | .str _ => 1
  | _ => 2

/-- The non-strict key order the stable sort uses: Python's <= on
numbers and on strings, extended to a total preorder. -/
def tsLe (a b : J) : Bool :=
  keyClass a < keyClass b ||
    (keyClass a == keyClass b &&
      (numVal a < numVal b ||
        (numVal a == numVal b && strLeB (strVal a).data (strVal b).data)))

/-- Key order lifted to messages: list.sort(key=lambda x: x["timestamp"])
compares the timestamp fields (src/main.py line 217). -/
def msgLe (a b : Msg) : Bool := tsLe a.timestamp b.timestamp

/-- Stable insertion into a sorted list: the new element goes before the
first element it is le-below, so an earlier batch element stays ahead of
every tied later one. -/
def insertSorted (le : α → α → Bool) (a : α) : List α → List α
  | [] => [a]
  | b :: l => if le a b then a :: b :: l else b :: insertSorted le a l

/-- Stable insertion sort, the model of Python's stable list.sort. -/
def insSort (le : α → α → Bool) : List α → List α
  | [] => []
  | a :: l => insertSorted le a (insSort le l)

/-- Whether Python's sort succeeds on these timestamp keys: fewer than
two elements need no comparison; otherwise all keys numeric or all keys
strings. Anything else raises TypeError (list-valued keys, which Python
would compare elementwise, are conservatively in the error case). -/
def sortable (msgs : List Msg) : Bool :=
  msgs.length ≤ 1 || msgs.all (fun m => numericKey m.timestamp) ||
    msgs.all (fun m => strKey m.timestamp)

/-- messages.sort(key=lambda x: x["timestamp"]) (src/main.py line 217). -/
def sort_messages (msgs : List Msg) : Except PyErr (List Msg) :=
  if sortable msgs then .ok (insSort msgLe msgs) else .error .typeError

/-- MatrixClient.get_messages (src/main.py lines 214-218), from the
fetched chunk onward: format, then sort by timestamp. -/
def get_messages (chunk : List J) : Except PyErr (List Msg) :=
  match format_messages chunk with
  | .error er => .error er
  | .ok msgs => sort_messages msgs

/-- The write one batch event performs on the display-name dict, read
off src/main.py lines 144-149: the pair (sender, displayname) when the
event is a member event whose sender and displayname are both truthy,
nothing otherwise. (When reading the event raises instead, the whole
call aborts; the lemmas below always assume the pass succeeded.) -/
def memberWrite (e : J) : Option (J × J) :=
  match jget e "type" .null with
  | .error _ => none
  | .ok t =>
    if t.eqStr "m.room.member" then
      match jget e "sender" .null with
      | .error _ => none
      | .ok sender =>
        match jget e "content" (.obj []) with
        | .error _ => none
        | .ok content =>
          match jget content "displayname" .null with
          | .error _ => none
          | .ok d => if sender.truthy && d.truthy then some (sender, d) else none
    else none

/-- Membership event for the spec scenario: @a is named Alice. -/
def evMemberAlice : J := .obj [("type", .str "m.room.member"),
  ("sender", .str "@a"), ("content", .obj [("displayname", .str "Alice")])]

/-- Plain message from @a, body "hi", ts 100. -/
def evMsgA : J := .obj [("type", .str "m.room.message"),
  ("sender", .str "@a"), ("content", .obj [("body", .str "hi")]),
  ("origin_server_ts", .num 100)]

/-- Reply message from @b, body "re", ts 100, replying to event
"$xxxx1111". -/
def evMsgB : J := .obj [("type", .str "m.room.message"),
  ("sender", .str "@b"), ("content", .obj [("body", .str "re"),
    ("m.relates_to", .obj [("m.in_reply_to",
      .obj [("event_id", .str "$xxxx1111")])])]),
  ("origin_server_ts", .num 100)]

/-- Message carrying a thread marker whose relates_to has no event_id. -/
def evThreadNoId : J := .obj [("type", .str "m.room.message"),
  ("content", .obj [("m.relates_to", .obj [("rel_type", .str "m.thread")])])]

/-- Message carrying a thread marker whose relates_to has an empty
event_id. -/
def evThreadEmptyId : J := .obj [("type", .str "m.room.message"),
  ("content", .obj [("m.relates_to",
    .obj [("rel_type", .str "m.thread"), ("event_id", .str "")])])]

/-- Message carrying both a reply marker and a thread marker. -/
def evBoth : J := .obj [("type", .str "m.room.message"),
  ("content", .obj [("m.relates_to", .obj [
    ("m.in_reply_to", .obj [("event_id", .str "$reply111")]),
    ("rel_type", .str "m.thread"),
    ("event_id", .str "$thread22")])])]

/-- Message with a full event_id to shorten. -/
def evHashDemo : J := .obj [("type", .str "m.room.message"),
  ("content", .obj []), ("event_id", .str "!room:server$abcdefgh12345")]

/-- Message event with no sender field. -/
def evNoSender : J := .obj [("type", .str "m.room.message"),
  ("content", .obj [("body", .str "x")])]

/-- Message event with no origin_server_ts field. -/
def evNoTs : J := .obj [("type", .str "m.room.message"),
  ("sender", .str "@c"), ("content", .obj [("body", .str "late")])]

/-- A reaction event: neither a message nor a membership event. -/
def evReaction : J := .obj [("type", .str "m.reaction")]

/-- A malformed message event: its content is null, so reading body
raises inside the try block. -/
def evBadContent : J := .obj [("type", .str "m.room.message"),
  ("content", .null)]

/-- The formatted record for evMsgA with Alice resolved. -/
def msgA : Msg := ⟨.str "@a", .str "Alice", .str "@a", .str "hi",
  .num 100, false, false, .null, .str "unknown", .null, evMsgA⟩

/-- The formatted record for evMsgB (no display name resolved). -/
def msgB : Msg := ⟨.str "@b", .null, .str "@b", .str "re", .num 100,
  true, false, .str "$xxxx1111", .str "unknown", .str "xxxx1111", evMsgB⟩

/-- The formatted record for evMsgA when no membership event is in the
batch. -/
def msgALone : Msg := ⟨.str "@a", .null, .str "@a", .str "hi", .num 100,
  false, false, .null, .str "unknown", .null, evMsgA⟩

/-- The formatted record for evMsgB when no membership event is in the
batch. -/
def msgBLone : Msg := ⟨.str "@b", .null, .str "@b", .str "re", .num 100,
  true, false, .str "$xxxx1111", .str "unknown", .str "xxxx1111", evMsgB⟩

/-- The formatted record for evThreadNoId. -/
def msgThreadNoId : Msg := ⟨.str "Unknown", .null, .str "Unknown",
  .str "", .num 0, false, true, .null, .str "unknown", .null, evThreadNoId⟩

/-- The formatted record for evBoth. -/
def msgBoth : Msg := ⟨.str "Unknown", .null, .str "Unknown", .str "",
  .num 0, true, true, .str "$thread22", .str "unknown", .str "thread22",
  evBoth⟩

/-- The formatted record for evHashDemo. -/
def msgHashDemo : Msg := ⟨.str "Unknown", .null, .str "Unknown", .str "",
  .num 0, false, false, .null, .str "abcdefgh", .null, evHashDemo⟩

/-- The formatted record for evNoSender. -/
def msgNoSender : Msg := ⟨.str "Unknown", .null, .str "Unknown", .str "x",
  .num 0, false, false, .null, .str "unknown", .null, evNoSender⟩

/-- The formatted record for evNoTs. -/
def msgNoTs : Msg := ⟨.str "@c", .null, .str "@c", .str "late", .num 0,
  false, false, .null, .str "unknown", .null, evNoTs⟩

/-- The relates_to object carrying both a reply marker and thread
metadata, used to witness thread precedence. -/
def rtBoth : List (String × J) :=
  [("m.in_reply_to", .obj [("event_id", .str "$reply111")]),
   ("rel_type", .str "m.thread"), ("event_id", .str "$thread22")]

/-- The content of evBoth. -/
def contentBoth : J := .obj [("m.relates_to", .obj rtBoth)]

example : shortHash "!room:server$abcdefgh12345" = "abcdefgh" := rfl

example : shortHash "" = "unknown" := rfl

example : shortHash "$xxxx1111" = "xxxx1111" := rfl

example :
    format_messages [J.obj [("type", .str "m.room.message"),
      ("content", .obj [("body", .str "hi")]), ("sender", .str "@a"),
      ("origin_server_ts", .num 100)]] =
    .ok [{ nickname := .str "@a", display_name := .null, sender := .str "@a",
           body := .str "hi", timestamp := .num 100, is_reply := false,
           is_thread := false, reply_to_event_id := .null,
           event_hash := .str "unknown", reply_to_hash := .null,
           raw_event := J.obj [("type", .str "m.room.message"),
             ("content", .obj [("body", .str "hi")]), ("sender", .str "@a"),
             ("origin_server_ts", .num 100)] }] := rfl

theorem pyEq_symm (a b : J) : pyEq a b = pyEq b a := by
  cases a <;> cases b <;> simp [pyEq, eq_comm]

theorem pyEq_refl_of_hashable (a : J) (h : a.hashable = true) : pyEq a a = true := by
  cases a <;> simp_all [pyEq, J.hashable]

theorem strLeB_total (s t : List Char) : strLeB s t || strLeB t s := by
  induction s generalizing t with
  | nil => simp [strLeB]
  | cons c cs ih =>
    cases t with
    | nil => simp [strLeB]
    | cons d ds =>
      by_cases h : c = d
      · subst h
        simpa [strLeB] using ih ds
      · rcases lt_or_gt_of_ne h with hlt | hgt
        · have hl : strLeB (c :: cs) (d :: ds) = true := by simp [strLeB, h, hlt]
          simp [hl]
        · have hr : strLeB (d :: ds) (c :: cs) = true := by
            simp [strLeB, Ne.symm h, hgt]
          simp [hr]

theorem strLeB_trans (a b c : List Char) (h1 : strLeB a b = true)
    (h2 : strLeB b c = true) : strLeB a c = true := by
  induction a generalizing b c with
  | nil => simp [strLeB]
  | cons x xs ih =>
    cases b with
    | nil => simp [strLeB] at h1
    | cons y ys =>
      cases c with
      | nil => simp [strLeB] at h2
      | cons z zs =>
        by_cases hxy : x = y <;> by_cases hyz : y = z
        · subst hxy; subst hyz
          simp only [strLeB, if_pos rfl] at h1 h2 ⊢
          exact ih ys zs h1 h2
        · subst hxy
          simp only [strLeB, if_pos rfl, if_neg hyz] at h2 ⊢
          exact h2
        · subst hyz
          simp only [strLeB, if_pos rfl, if_neg hxy] at h1 ⊢
          exact h1
        · simp only [strLeB, if_neg hxy, decide_eq_true_eq] at h1
          simp only [strLeB, if_neg hyz, decide_eq_true_eq] at h2
          have hxz : x < z := h1.trans h2
          simp [strLeB, ne_of_lt hxz, hxz]

theorem tsLe_iff (a b : J) : tsLe a b = true ↔
    keyClass a < keyClass b ∨ (keyClass a = keyClass b ∧
      (numVal a < numVal b ∨ (numVal a = numVal b ∧
        strLeB (strVal a).data (strVal b).data = true))) := by
  simp [tsLe, Bool.or_eq_true, Bool.and_eq_true, decide_eq_true_eq, beq_iff_eq]

theorem tsLe_total (a b : J) : tsLe a b = true ∨ tsLe b a = true := by
  rw [tsLe_iff, tsLe_iff]
  rcases Nat.lt_trichotomy (keyClass a) (keyClass b) with h | h | h
  · exact Or.inl (Or.inl h)
  · rcases Int.lt_trichotomy (numVal a) (numVal b) with h2 | h2 | h2
    · exact Or.inl (Or.inr ⟨h, Or.inl h2⟩)
    · rcases Bool.or_eq_true_iff.mp
        (strLeB_total (strVal a).data (strVal b).data) with hs | hs
      · exact Or.inl (Or.inr ⟨h, Or.inr ⟨h2, hs⟩⟩)
      · exact Or.inr (Or.inr ⟨h.symm, Or.inr ⟨h2.symm, hs⟩⟩)
    · exact Or.inr (Or.inr ⟨h.symm, Or.inl h2⟩)
  · exact Or.inr (Or.inl h)

theorem tsLe_trans (a b c : J) (h1 : tsLe a b = true) (h2 : tsLe b c = true) :
    tsLe a c = true := by
  rw [tsLe_iff] at h1 h2 ⊢
  rcases h1 with h1 | ⟨e1, h1⟩ <;> rcases h2 with h2 | ⟨e2, h2⟩
  · exact Or.inl (h1.trans h2)
  · exact Or.inl (by omega)
  · exact Or.inl (by omega)
  · refine Or.inr ⟨e1.trans e2, ?_⟩
    rcases h1 with h1 | ⟨n1, s1⟩ <;> rcases h2 with h2 | ⟨n2, s2⟩
    · exact Or.inl (h1.trans h2)
    · exact Or.inl (by omega)
    · exact Or.inl (by omega)
    · exact Or.inr ⟨n1.trans n2, strLeB_trans _ _ _ s1 s2⟩

theorem msgLe_total (a b : Msg) : msgLe a b = true ∨ msgLe b a = true :=
  tsLe_total a.timestamp b.timestamp

theorem msgLe_trans (a b c : Msg) (h1 : msgLe a b = true)
    (h2 : msgLe b c = true) : msgLe a c = true :=
  tsLe_trans a.timestamp b.timestamp c.timestamp h1 h2

theorem insertSorted_perm (le : α → α → Bool) (a : α) (l : List α) :
    List.Perm (insertSorted le a l) (a :: l) := by
  induction l with
  | nil => exact List.Perm.refl _
  | cons b t ih =>
    simp only [insertSorted]
    split
    · exact List.Perm.refl _
    · exact (ih.cons b).trans (List.Perm.swap a b t)

theorem insSort_perm (le : α → α → Bool) (l : List α) :
    List.Perm (insSort le l) l := by
  induction l with
  | nil => exact List.Perm.refl _
  | cons a t ih => exact (insertSorted_perm le a (insSort le t)).trans (ih.cons a)

theorem insertSorted_pairwise (le : α → α → Bool)
    (htot : ∀ x y, le x y = true ∨ le y x = true)
    (htrans : ∀ x y z, le x y = true → le y z = true → le x z = true)
    (a : α) (l : List α) (h : l.Pairwise (fun x y => le x y = true)) :
    (insertSorted le a l).Pairwise (fun x y => le x y = true) := by
  induction l with
  | nil => simp [insertSorted]
  | cons b t ih =>
    rcases List.pairwise_cons.mp h with ⟨hb, ht⟩
    simp only [insertSorted]
    split
    case isTrue hab =>
      refine List.pairwise_cons.mpr ⟨?_, h⟩
      intro x hx
      rcases List.mem_cons.mp hx with rfl | hx
      · exact hab
      · exact htrans a b x hab (hb x hx)
    case isFalse hab =>
      refine List.pairwise_cons.mpr ⟨?_, ih ht⟩
      intro x hx
      rcases List.mem_cons.mp ((insertSorted_perm le a t).mem_iff.mp hx) with rfl | hx
      · rcases htot x b with hab' | hba
        · exact absurd hab' hab
        · exact hba
      · exact hb x hx

theorem insSort_pairwise (le : α → α → Bool)
    (htot : ∀ x y, le x y = true ∨ le y x = true)
    (htrans : ∀ x y z, le x y = true → le y z = true → le x z = true)
    (l : List α) : (insSort le l).Pairwise (fun x y => le x y = true) := by
  induction l with
  | nil => simp [insSort]
  | cons a t ih => exact insertSorted_pairwise le htot htrans a (insSort le t) ih

theorem insertSorted_filter (le : α → α → Bool) (p : α → Bool)
    (hcls : ∀ x y, p x = true → p y = true → le x y = true)
    (a : α) (l : List α) :
    (insertSorted le a l).filter p =
      if p a then a :: l.filter p else l.filter p := by
  induction l with
  | nil => by_cases hpa : p a <;> simp [insertSorted, List.filter, hpa]
  | cons b t ih =>
    simp only [insertSorted]
    split
    case isTrue hab =>
      by_cases hpa : p a <;> simp [List.filter_cons, hpa]
    case isFalse hab =>
      by_cases hpa : p a
      · have hpb : p b = false := by
          rcases Bool.eq_false_or_eq_true (p b) with hb | hb
          · exact absurd (hcls a b hpa hb) hab
          · exact hb
        simp [List.filter_cons, hpb, ih, hpa]
      · simp [List.filter_cons, ih, hpa]

theorem insSort_filter (le : α → α → Bool) (p : α → Bool)
    (hcls : ∀ x y, p x = true → p y = true → le x y = true)
    (l : List α) : (insSort le l).filter p = l.filter p := by
  induction l with
  | nil => rfl
  | cons a t ih =>
    simp only [insSort]
    rw [insertSorted_filter le p hcls]
    by_cases hpa : p a <;> simp [List.filter_cons, hpa, ih]

theorem pass1_append (acc : DNames) (l₁ l₂ : List J) :
    pass1 acc (l₁ ++ l₂) =
      match pass1 acc l₁ with
      | .error er => .error er
      | .ok acc' => pass1 acc' l₂ := by
  induction l₁ generalizing acc with
  | nil => simp [pass1]
  | cons e rest ih =>
    simp only [List.cons_append, pass1]
    cases pass1Step acc e with
    | error er => rfl
    | ok acc' => exact ih acc'

theorem pass2_acc (names : DNames) (acc : List Msg) (l : List J) :
    pass2 names acc l = (pass2 names [] l).map (fun out => acc ++ out) := by
  induction l generalizing acc with
  | nil => simp [pass2, Except.map]
  | cons e rest ih =>
    simp only [pass2]
    cases jget e "type" .null with
    | error er => simp [Except.map]
    | ok t =>
      by_cases ht : t.eqStr "m.room.message" = true
      · simp only [ht, if_true]
        cases htb : tryBody names e with
        | ok m =>
          dsimp only
          rw [ih (acc ++ [m])]
          simp only [List.nil_append]
          rw [ih [m]]
          cases pass2 names [] rest with
          | error er => simp [Except.map]
          | ok out => simp [Except.map]
        | error er => dsimp only; exact ih acc
      · simp only [ht, if_false, Bool.false_eq_true]
        exact ih acc

theorem pass2_append (names : DNames) (acc : List Msg) (l₁ l₂ : List J) :
    pass2 names acc (l₁ ++ l₂) =
      match pass2 names acc l₁ with
      | .error er => .error er
      | .ok out => pass2 names out l₂ := by
  induction l₁ generalizing acc with
  | nil => simp [pass2]
  | cons e rest ih =>
    simp only [List.cons_append, pass2]
    cases jget e "type" .null with
    | error er => rfl
    | ok t =>
      by_cases ht : t.eqStr "m.room.message" = true
      · simp only [ht, if_true]
        cases htb : tryBody names e with
        | ok m => dsimp only; exact ih (acc ++ [m])
        | error er => dsimp only; exact ih acc
      · simp only [ht, if_false, Bool.false_eq_true]
        exact ih acc

theorem tryBody_ok_inv (names : DNames) (e : J) (m : Msg)
    (h : tryBody names e = .ok m) :
    ∃ sender display_name content body relates_to is_reply rel_type
      reply_to ts eid ehash rhash,
      jget e "sender" (.str "Unknown") = .ok sender ∧
      dgetName names sender = .ok display_name ∧
      jget e "content" (.obj []) = .ok content ∧
      jget content "body" (.str "") = .ok body ∧
      jget content "m.relates_to" (.obj []) = .ok relates_to ∧
      inOp "m.in_reply_to" relates_to = .ok is_reply ∧
      jget relates_to "rel_type" .null = .ok rel_type ∧
      resolveRelated relates_to is_reply (rel_type.eqStr "m.thread") = .ok reply_to ∧
      jget e "origin_server_ts" (.num 0) = .ok ts ∧
      jget e "event_id" (.str "") = .ok eid ∧
      hashExpr eid = .ok ehash ∧
      replyHashExpr reply_to = .ok rhash ∧
      m = ⟨sender, display_name, sender, body, ts, is_reply,
           rel_type.eqStr "m.thread", reply_to, ehash, rhash, e⟩ := by
  unfold tryBody at h
  repeat' split at h
  any_goals exact Except.noConfusion h
  injection h with h'
  subst h'
  rename_i x1 sv h1 x2 dnv h2 x3 cv h3 x4 bv h4 x5 rtv h5 x6 irv h6
    x7 rlv h7 x8 rev h8 x9 tsv h9 x10 eiv h10 x11 ehv h11 x12 rhv h12
  exact ⟨sv, dnv, cv, bv, rtv, irv, rlv, rev, tsv, eiv, ehv, rhv,
    h1, h2, h3, h4, h5, h6, h7, h8, h9, h10, h11, h12, rfl⟩

theorem tryBody_raw (names : DNames) (e : J) (m : Msg)
    (h : tryBody names e = .ok m) : m.raw_event = e := by
  obtain ⟨s, dn, c, b, rt, ir, rl, re, ts, ei, eh, rh,
    _, _, _, _, _, _, _, _, _, _, _, _, hmeq⟩ := tryBody_ok_inv names e m h
  subst hmeq
  rfl

theorem pass2_mem (names : DNames) (l : List J) (out : List Msg) (m : Msg)
    (h : pass2 names [] l = .ok out) (hm : m ∈ out) :
    ∃ e ∈ l, ∃ t, jget e "type" .null = .ok t ∧
      t.eqStr "m.room.message" = true ∧ tryBody names e = .ok m := by
  induction l generalizing out with
  | nil =>
    simp only [pass2] at h
    injection h with h'
    subst h'
    simp at hm
  | cons e rest ih =>
    simp only [pass2] at h
    cases hjt : jget e "type" .null with
    | error er => rw [hjt] at h; exact Except.noConfusion h
    | ok t =>
      rw [hjt] at h
      dsimp only at h
      by_cases ht : t.eqStr "m.room.message" = true
      · rw [if_pos ht] at h
        cases htb : tryBody names e with
        | ok m' =>
          rw [htb] at h
          dsimp only at h
          rw [pass2_acc] at h
          cases hrest : pass2 names [] rest with
          | error er => rw [hrest] at h; exact Except.noConfusion h
          | ok out' =>
            rw [hrest] at h
            simp only [Except.map] at h
            injection h with h'
            subst h'
            have hm' : m = m' ∨ m ∈ out' := by simpa using hm
            rcases hm' with rfl | hm2
            · exact ⟨e, List.mem_cons_self e rest, t, hjt, ht, htb⟩
            · obtain ⟨e', he', w⟩ := ih out' hrest hm2
              exact ⟨e', List.mem_cons_of_mem e he', w⟩
        | error er =>
          rw [htb] at h
          dsimp only at h
          obtain ⟨e', he', w⟩ := ih out h hm
          exact ⟨e', List.mem_cons_of_mem e he', w⟩
      · rw [if_neg ht] at h
        obtain ⟨e', he', w⟩ := ih out h hm
        exact ⟨e', List.mem_cons_of_mem e he', w⟩

theorem pass2_raw (names : DNames) (l : List J) (out : List Msg)
    (h : pass2 names [] l = .ok out) :
    List.Sublist (out.map Msg.raw_event) l := by
  induction l generalizing out with
  | nil =>
    simp only [pass2] at h
    injection h with h'
    subst h'
    simp
  | cons e rest ih =>
    simp only [pass2] at h
    cases hjt : jget e "type" .null with
    | error er => rw [hjt] at h; exact Except.noConfusion h
    | ok t =>
      rw [hjt] at h
      dsimp only at h
      by_cases ht : t.eqStr "m.room.message" = true
      · rw [if_pos ht] at h
        cases htb : tryBody names e with
        | ok m' =>
          rw [htb] at h
          dsimp only at h
          rw [pass2_acc] at h
          cases hrest : pass2 names [] rest with
          | error er => rw [hrest] at h; exact Except.noConfusion h
          | ok out' =>
            rw [hrest] at h
            simp only [Except.map] at h
            injection h with h'
            subst h'
            simpa [tryBody_raw names e m' htb] using (ih out' hrest).cons₂ e
        | error er =>
          rw [htb] at h
          dsimp only at h
          exact (ih out h).cons e
      · rw [if_neg ht] at h
        exact (ih out h).cons e

theorem format_messages_ok (chunk : List J) (msgs : List Msg)
    (h : format_messages chunk = .ok msgs) :
    ∃ names, pass1 emptyNames chunk = .ok names ∧
      pass2 names [] chunk = .ok msgs := by
  unfold format_messages at h
  cases hp : pass1 emptyNames chunk with
  | error er => rw [hp] at h; exact Except.noConfusion h
  | ok names =>
    rw [hp] at h
    exact ⟨names, rfl, h⟩

theorem get_messages_ok (chunk : List J) (out : List Msg)
    (h : get_messages chunk = .ok out) :
    ∃ msgs, format_messages chunk = .ok msgs ∧ sortable msgs = true ∧
      out = insSort msgLe msgs := by
  unfold get_messages at h
  cases hf : format_messages chunk with
  | error er => rw [hf] at h; exact Except.noConfusion h
  | ok msgs =>
    rw [hf] at h
    dsimp only at h
    unfold sort_messages at h
    by_cases hs : sortable msgs = true
    · rw [if_pos hs] at h
      injection h with h'
      exact ⟨msgs, rfl, hs, h'.symm⟩
    · rw [if_neg hs] at h
      exact Except.noConfusion h

theorem pass1Step_char (acc : DNames) (e : J) (acc' : DNames)
    (h : pass1Step acc e = .ok acc') :
    (∀ s d, memberWrite e = some (s, d) →
      s.hashable = true ∧ acc' = setName acc s d) ∧
    (memberWrite e = none → acc' = acc) := by
  unfold pass1Step at h
  unfold memberWrite
  cases hjt : jget e "type" .null with
  | error er => simp [hjt] at h
  | ok t =>
    try simp only [hjt] at h
    try dsimp only
    by_cases ht : t.eqStr "m.room.member" = true
    · rw [if_pos ht] at h ⊢
      cases hjs : jget e "sender" .null with
      | error er => simp [hjs] at h
      | ok sender =>
        try simp only [hjs] at h
        try dsimp only
        cases hjc : jget e "content" (.obj []) with
        | error er => simp [hjc] at h
        | ok content =>
          try simp only [hjc] at h
          try dsimp only
          cases hjd : jget content "displayname" .null with
          | error er => simp [hjd] at h
          | ok d =>
            try simp only [hjd] at h
            try dsimp only
            by_cases htr : (sender.truthy && d.truthy) = true
            · rw [if_pos htr] at h ⊢
              by_cases hh : sender.hashable = true
              · rw [if_pos hh] at h
                injection h with h'
                subst h'
                refine ⟨?_, ?_⟩
                · intro s' d' hsd
                  injection hsd with hsd'
                  have h1 : sender = s' := congrArg Prod.fst hsd'
                  have h2 : d = d' := congrArg Prod.snd hsd'
                  subst h1
                  subst h2
                  exact ⟨hh, rfl⟩
                · intro hnone
                  exact absurd hnone (by simp)
              · rw [if_neg hh] at h
                exact Except.noConfusion h
            · rw [if_neg htr] at h ⊢
              injection h with h'
              subst h'
              exact ⟨fun s' d' hsd => absurd hsd (by simp), fun _ => rfl⟩
    · rw [if_neg ht] at h ⊢
      injection h with h'
      subst h'
      exact ⟨fun s' d' hsd => absurd hsd (by simp), fun _ => rfl⟩

theorem pass1_no_write (acc : DNames) (l : List J) (f : DNames) (s : J)
    (h : pass1 acc l = .ok f)
    (hw : ∀ e ∈ l, ∀ p, memberWrite e = some p → pyEq s p.1 = false) :
    f s = acc s := by
  induction l generalizing acc with
  | nil =>
    simp only [pass1] at h
    injection h with h'
    subst h'
    rfl
  | cons e rest ih =>
    simp only [pass1] at h
    cases hstep : pass1Step acc e with
    | error er => rw [hstep] at h; exact Except.noConfusion h
    | ok acc' =>
      rw [hstep] at h
      dsimp only at h
      have h2 : f s = acc' s :=
        ih acc' h (fun e' he' => hw e' (List.mem_cons_of_mem e he'))
      obtain ⟨hsome, hnone⟩ := pass1Step_char acc e acc' hstep
      cases hmw : memberWrite e with
      | none => rw [h2, hnone hmw]
      | some p =>
        obtain ⟨hh, heq⟩ := hsome p.1 p.2 (by rw [hmw])
        rw [h2, heq]
        simp [setName, hw e (List.mem_cons_self e rest) p hmw]

theorem pass1_last_write (acc : DNames) (l₁ : List J) (e : J) (l₂ : List J)
    (f : DNames) (s d : J)
    (h : pass1 acc (l₁ ++ e :: l₂) = .ok f)
    (hw : memberWrite e = some (s, d))
    (hafter : ∀ e' ∈ l₂, ∀ p, memberWrite e' = some p → pyEq s p.1 = false) :
    f s = some d := by
  rw [pass1_append] at h
  cases h1 : pass1 acc l₁ with
  | error er => rw [h1] at h; exact Except.noConfusion h
  | ok f₁ =>
    rw [h1] at h
    dsimp only at h
    simp only [pass1] at h
    cases hstep : pass1Step f₁ e with
    | error er => rw [hstep] at h; exact Except.noConfusion h
    | ok f₂ =>
      rw [hstep] at h
      dsimp only at h
      obtain ⟨hsome, _⟩ := pass1Step_char f₁ e f₂ hstep
      obtain ⟨hh, heq⟩ := hsome s d hw
      have hfs : f s = f₂ s := pass1_no_write f₂ l₂ f s h hafter
      rw [hfs, heq]
      simp [setName, pyEq_refl_of_hashable s hh]

theorem pass1_absent (l : List J) (f : DNames) (s : J)
    (h : pass1 emptyNames l = .ok f)
    (hn : ∀ e ∈ l, ∀ p, memberWrite e = some p → pyEq s p.1 = false) :
    f s = none := by
  rw [pass1_no_write emptyNames l f s h hn]
  rfl

/-- C7: on the batch [member @a Alice; message @a "hi" ts 100; reply
message @b "re" ts 100 to $xxxx1111], the pipeline outputs exactly the
two messages, both with timestamp 100, in original batch order; the
first has display name Alice and relation Plain, the second has no
display name, relation Reply and related hash "xxxx1111". -/
theorem C7_scenario :
    get_messages [evMemberAlice, evMsgA, evMsgB] = .ok [msgA, msgB] ∧
    msgA.raw_event = evMsgA ∧ msgB.raw_event = evMsgB ∧
    msgA.display_name = .str "Alice" ∧ msgA.relation = .plain ∧
    msgA.timestamp = .num 100 ∧
    msgB.display_name = .null ∧ msgB.relation = .reply ∧
    msgB.timestamp = .num 100 ∧ msgB.reply_to_hash = .str "xxxx1111" :=
  ⟨rfl, rfl, rfl, rfl, rfl, rfl, rfl, rfl, rfl, rfl⟩

/-- C8: the formatting-and-sorting pipeline is a pure function of the
batch: identical batches give identical outputs. -/
theorem C8_deterministic (c₁ c₂ : List J) (h : c₁ = c₂) :
    get_messages c₁ = get_messages c₂ := by rw [h]

/-- Witness for C8 at a concrete batch. -/
theorem C8_deterministic_witness :
    get_messages [evMemberAlice, evMsgA] = get_messages [evMemberAlice, evMsgA] :=
  C8_deterministic [evMemberAlice, evMsgA] [evMemberAlice, evMsgA] rfl

/-- C1 (counterexample): on the batch holding one message event whose
m.relates_to carries rel_type m.thread but no event_id, the pipeline
produces a message whose relation is Threaded while its
related_event_id is absent — so "related_event_id is present iff the
relation is not Plain" fails as stated. -/
theorem C1_counterexample :
    (format_messages [evThreadNoId]).map
      (fun l => l.map (fun m => (m.relation, m.relatedPresent))) =
      .ok [(.threaded, false)] ∧ Relation.threaded ≠ Relation.plain :=
  ⟨rfl, by decide⟩

/-- C1 (amended): every message the pipeline outputs has a relation that
is exactly one of Plain, Reply, Threaded; a Plain message never carries
a related event id (presence of a related event id forces relation not
Plain), while a Reply or Threaded message may lack one when its
relates_to metadata has no event_id field. -/
theorem C1_relation_invariant (chunk : List J) (out : List Msg)
    (h : get_messages chunk = .ok out) (m : Msg) (hm : m ∈ out) :
    (m.relation = .plain ∨ m.relation = .reply ∨ m.relation = .threaded) ∧
    (m.relation = .plain → m.relatedPresent = false) ∧
    (m.relatedPresent = true → m.relation ≠ .plain) := by
  obtain ⟨msgs, hf, hs, rfl⟩ := get_messages_ok chunk out h
  have hmm : m ∈ msgs := (insSort_perm msgLe msgs).mem_iff.mp hm
  obtain ⟨names, hp1, hp2⟩ := format_messages_ok chunk msgs hf
  obtain ⟨e, he, t, hjt, ht, htb⟩ := pass2_mem names chunk msgs m hp2 hmm
  obtain ⟨sv, dnv, cv, bv, rtv, irv, rlv, rev, tsv, eiv, ehv, rhv,
    h1, h2, h3, h4, h5, h6, h7, h8, h9, h10, h11, h12, rfl⟩ :=
    tryBody_ok_inv names e m htb
  have hall : (Msg.relation ⟨sv, dnv, sv, bv, tsv, irv,
      rlv.eqStr "m.thread", rev, ehv, rhv, e⟩ = .plain ∨
      Msg.relation ⟨sv, dnv, sv, bv, tsv, irv,
      rlv.eqStr "m.thread", rev, ehv, rhv, e⟩ = .reply ∨
      Msg.relation ⟨sv, dnv, sv, bv, tsv, irv,
      rlv.eqStr "m.thread", rev, ehv, rhv, e⟩ = .threaded) := by
    by_cases hth : rlv.eqStr "m.thread" = true <;> cases irv <;>
      simp [Msg.relation, hth]
  have hkey : Msg.relation ⟨sv, dnv, sv, bv, tsv, irv,
      rlv.eqStr "m.thread", rev, ehv, rhv, e⟩ = .plain →
      Msg.relatedPresent ⟨sv, dnv, sv, bv, tsv, irv,
      rlv.eqStr "m.thread", rev, ehv, rhv, e⟩ = false := by
    intro hplain
    by_cases hth : rlv.eqStr "m.thread" = true
    · simp [Msg.relation, hth] at hplain
    · cases irv with
      | true => simp [Msg.relation, hth] at hplain
      | false =>
        simp only [resolveRelated, hth, if_false, Bool.false_eq_true,
          if_neg] at h8
        have hrev : rev = .null := by
          simp at h8
          exact h8.symm
        subst hrev
        rfl
  refine ⟨hall, hkey, fun hp hpl => ?_⟩
  rw [hkey hpl] at hp
  exact Bool.noConfusion hp

/-- Witness for the amended C1 at a concrete batch. -/
theorem C1_relation_invariant_witness :
    get_messages [evThreadNoId] = .ok [msgThreadNoId] ∧
    ((msgThreadNoId.relation = .plain ∨ msgThreadNoId.relation = .reply ∨
      msgThreadNoId.relation = .threaded) ∧
     (msgThreadNoId.relation = .plain → msgThreadNoId.relatedPresent = false) ∧
     (msgThreadNoId.relatedPresent = true → msgThreadNoId.relation ≠ .plain)) :=
  ⟨rfl, C1_relation_invariant [evThreadNoId] [msgThreadNoId] rfl msgThreadNoId
    (List.mem_singleton.mpr rfl)⟩

/-- C2: when a message event's relates_to carries both the m.in_reply_to
key and rel_type m.thread, the produced message resolves to Threaded and
its related event id is read from relates_to's own event_id field, not
from m.in_reply_to's. -/
theorem C2_thread_precedence (names : DNames) (e : J) (m : Msg)
    (content : J) (rkvs : List (String × J))
    (hc : jget e "content" (.obj []) = .ok content)
    (hrt : jget content "m.relates_to" (.obj []) = .ok (.obj rkvs))
    (hreply : rkvs.any (fun p => p.1 == "m.in_reply_to") = true)
    (hthread : lookupLast rkvs "rel_type" = some (.str "m.thread"))
    (h : tryBody names e = .ok m) :
    m.relation = .threaded ∧
    m.reply_to_event_id = (lookupLast rkvs "event_id").getD .null := by
  obtain ⟨sv, dnv, cv, bv, rtv, irv, rlv, rev, tsv, eiv, ehv, rhv,
    h1, h2, h3, h4, h5, h6, h7, h8, h9, h10, h11, h12, rfl⟩ :=
    tryBody_ok_inv names e m h
  rw [hc] at h3
  injection h3 with hcv
  subst hcv
  rw [hrt] at h5
  injection h5 with hrtv
  subst hrtv
  have hirv : irv = true := by
    simp only [inOp] at h6
    injection h6 with h6'
    rw [← h6']
    exact hreply
  subst hirv
  have hrlv : rlv = .str "m.thread" := by
    simp only [jget, hthread, Option.getD] at h7
    injection h7 with h7'
    exact h7'.symm
  subst hrlv
  have heq : (J.str "m.thread").eqStr "m.thread" = true := rfl
  constructor
  · simp [Msg.relation, heq]
  · simp only [resolveRelated, heq, if_pos, jget] at h8
    injection h8 with h8'
    exact h8'.symm

/-- Witness for C2 at the concrete both-markers event. -/
theorem C2_thread_precedence_witness :
    tryBody emptyNames evBoth = .ok msgBoth ∧
    (msgBoth.relation = .threaded ∧
     msgBoth.reply_to_event_id = (lookupLast rtBoth "event_id").getD .null) :=
  ⟨rfl, C2_thread_precedence emptyNames evBoth msgBoth contentBoth rtBoth
    rfl rfl rfl rfl rfl⟩

/-- C4 (counterexample): a message whose thread metadata carries an
empty-string event_id has a present related_event_id (the empty string)
but an absent related hash — the shortener is not applied, and the
"unknown" sentinel does not appear. -/
theorem C4_counterexample :
    (format_messages [evThreadEmptyId]).map
      (fun l => l.map (fun m => (m.reply_to_event_id, m.reply_to_hash))) =
      .ok [(.str "", .null)] ∧ J.null ≠ J.str (shortHash "") :=
  ⟨rfl, by simp⟩

/-- C4 (amended): the shortener takes the first 8 characters after the
last dollar sign and maps the empty identifier to the "unknown"
sentinel; it is applied to event_id whenever that field is a string
(absent fields defaulting to the empty string, hence "unknown"), and to
related_event_id exactly when the latter is present AND non-empty — a
present-but-empty related id yields an absent related hash instead of
the sentinel. -/
theorem C4_short_hash :
    shortHash "!room:server$abcdefgh12345" = "abcdefgh" ∧
    shortHash "" = "unknown" ∧
    (∀ names e m s, tryBody names e = .ok m →
      jget e "event_id" (.str "") = .ok (.str s) →
      m.event_hash = .str (shortHash s)) ∧
    (∀ names e m s, tryBody names e = .ok m →
      m.reply_to_event_id = .str s → s ≠ "" →
      m.reply_to_hash = .str (shortHash s)) ∧
    (∀ names e m, tryBody names e = .ok m →
      m.reply_to_event_id = .str "" → m.reply_to_hash = .null) := by
  refine ⟨rfl, rfl, ?_, ?_, ?_⟩
  · intro names e m s htb hje
    obtain ⟨sv, dnv, cv, bv, rtv, irv, rlv, rev, tsv, eiv, ehv, rhv,
      h1, h2, h3, h4, h5, h6, h7, h8, h9, h10, h11, h12, rfl⟩ :=
      tryBody_ok_inv names e m htb
    rw [hje] at h10
    injection h10 with he
    subst he
    by_cases hs : s = ""
    · subst hs
      simp only [hashExpr, J.truthy] at h11
      simp at h11
      rw [← h11]
      rfl
    · simp only [hashExpr, J.truthy, splitHash] at h11
      rw [if_pos (by simpa using hs)] at h11
      injection h11 with h11'
      rw [← h11']
      simp [shortHash, hs]
  · intro names e m s htb hrev hs
    obtain ⟨sv, dnv, cv, bv, rtv, irv, rlv, rev, tsv, eiv, ehv, rhv,
      h1, h2, h3, h4, h5, h6, h7, h8, h9, h10, h11, h12, rfl⟩ :=
      tryBody_ok_inv names e m htb
    have hrev' : rev = .str s := hrev
    subst hrev'
    simp only [replyHashExpr, J.truthy, splitHash] at h12
    rw [if_pos (by simpa using hs), if_pos (by simpa using hs)] at h12
    injection h12 with h12'
    rw [← h12']
    simp [shortHash, hs]
  · intro names e m htb hrev
    obtain ⟨sv, dnv, cv, bv, rtv, irv, rlv, rev, tsv, eiv, ehv, rhv,
      h1, h2, h3, h4, h5, h6, h7, h8, h9, h10, h11, h12, rfl⟩ :=
      tryBody_ok_inv names e m htb
    have hrev' : rev = .str "" := hrev
    subst hrev'
    simp only [replyHashExpr, J.truthy] at h12
    simp at h12
    rw [← h12]

/-- Witness for the amended C4 at a concrete event with a full
identifier. -/
theorem C4_short_hash_witness :
    tryBody emptyNames evHashDemo = .ok msgHashDemo ∧
    jget evHashDemo "event_id" (.str "") =
      .ok (.str "!room:server$abcdefgh12345") ∧
    msgHashDemo.event_hash = .str (shortHash "!room:server$abcdefgh12345") :=
  ⟨rfl, rfl, C4_short_hash.2.2.1 emptyNames evHashDemo msgHashDemo
    "!room:server$abcdefgh12345" rfl rfl⟩

/-- C3: the sequence get_messages returns is sorted non-decreasingly by
timestamp; messages whose timestamps tie keep exactly their relative
order from the formatted (batch-ordered) sequence, whose source events
in turn appear in batch order (a sublist of the chunk); no secondary key
is consulted. -/
theorem C3_sorted_stable (chunk : List J) (msgs out : List Msg)
    (h1 : format_messages chunk = .ok msgs)
    (h2 : get_messages chunk = .ok out) :
    out.Pairwise (fun a b => msgLe a b = true) ∧
    (∀ t : J, out.filter (fun m => tsLe m.timestamp t && tsLe t m.timestamp) =
      msgs.filter (fun m => tsLe m.timestamp t && tsLe t m.timestamp)) ∧
    List.Sublist (msgs.map Msg.raw_event) chunk := by
  obtain ⟨msgs', hf, hs, rfl⟩ := get_messages_ok chunk out h2
  rw [h1] at hf
  injection hf with hf'
  subst hf'
  refine ⟨insSort_pairwise msgLe msgLe_total msgLe_trans msgs, ?_, ?_⟩
  · intro t
    refine insSort_filter msgLe
      (fun m => tsLe m.timestamp t && tsLe t m.timestamp) ?_ msgs
    intro x y hx hy
    obtain ⟨hx1, hx2⟩ := Bool.and_eq_true_iff.mp hx
    obtain ⟨hy1, hy2⟩ := Bool.and_eq_true_iff.mp hy
    exact tsLe_trans x.timestamp t y.timestamp hx1 hy2
  · obtain ⟨names, hp1, hp2⟩ := format_messages_ok chunk msgs h1
    exact pass2_raw names chunk msgs hp2

/-- Witness for C3 at a batch with two tied timestamps. -/
theorem C3_sorted_stable_witness :
    format_messages [evMsgB, evMsgA] = .ok [msgBLone, msgALone] ∧
    get_messages [evMsgB, evMsgA] = .ok [msgBLone, msgALone] ∧
    List.Pairwise (fun a b => msgLe a b = true) [msgBLone, msgALone] ∧
    List.Sublist ([msgBLone, msgALone].map Msg.raw_event) [evMsgB, evMsgA] := by
  have h := C3_sorted_stable [evMsgB, evMsgA] [msgBLone, msgALone]
    [msgBLone, msgALone] rfl rfl
  exact ⟨rfl, rfl, h.1, h.2.2⟩

/-- C5: display-name resolution is last-write-wins per sender in batch
order — a member event writes its (sender, displayname) entry exactly
when both fields are truthy and otherwise leaves the dict untouched; a
later write to the same key overwrites an earlier one; and a sender
key never written in the batch resolves to an absent display name in
every produced message, with no error. -/
theorem C5_display_name_resolution :
    (∀ acc e acc', pass1Step acc e = .ok acc' →
      (∀ s d, memberWrite e = some (s, d) → acc' = setName acc s d) ∧
      (memberWrite e = none → acc' = acc)) ∧
    (∀ acc l₁ e l₂ f s d, pass1 acc (l₁ ++ e :: l₂) = .ok f →
      memberWrite e = some (s, d) →
      (∀ e' ∈ l₂, ∀ p, memberWrite e' = some p → pyEq s p.1 = false) →
      f s = some d) ∧
    (∀ chunk names msgs m, pass1 emptyNames chunk = .ok names →
      pass2 names [] chunk = .ok msgs → m ∈ msgs →
      (∀ e ∈ chunk, ∀ p, memberWrite e = some p → pyEq m.sender p.1 = false) →
      m.display_name = .null) := by
  refine ⟨?_, ?_, ?_⟩
  · intro acc e acc' hstep
    obtain ⟨hsome, hnone⟩ := pass1Step_char acc e acc' hstep
    exact ⟨fun s d hsd => (hsome s d hsd).2, hnone⟩
  · intro acc l₁ e l₂ f s d h hw hafter
    exact pass1_last_write acc l₁ e l₂ f s d h hw hafter
  · intro chunk names msgs m hp1 hp2 hm hno
    obtain ⟨e, he, t, hjt, ht, htb⟩ := pass2_mem names chunk msgs m hp2 hm
    obtain ⟨sv, dnv, cv, bv, rtv, irv, rlv, rev, tsv, eiv, ehv, rhv,
      h1, h2, h3, h4, h5, h6, h7, h8, h9, h10, h11, h12, rfl⟩ :=
      tryBody_ok_inv names e m htb
    by_cases hh : sv.hashable = true
    · have habs : names sv = none := by
        refine pass1_absent chunk names sv hp1 ?_
        intro e' he' p hp
        exact hno e' he' p hp
      simp only [dgetName, hh, if_pos, habs, Option.getD] at h2
      injection h2 with h2'
      exact h2'.symm
    · simp only [dgetName] at h2
      rw [if_neg (by simpa using hh)] at h2
      exact Except.noConfusion h2

/-- Witness for C5 at concrete batches. -/
theorem C5_display_name_resolution_witness :
    pass1 emptyNames [evMemberAlice, evMsgA] =
      .ok (setName emptyNames (.str "@a") (.str "Alice")) ∧
    memberWrite evMemberAlice = some (.str "@a", .str "Alice") ∧
    setName emptyNames (.str "@a") (.str "Alice") (.str "@a") =
      some (.str "Alice") ∧
    pass1 emptyNames [evMsgA] = .ok emptyNames ∧
    pass2 emptyNames [] [evMsgA] = .ok [msgALone] ∧
    msgALone.display_name = .null := by
  refine ⟨rfl, rfl, ?_, rfl, rfl, ?_⟩
  · exact C5_display_name_resolution.2.1 emptyNames [] evMemberAlice [evMsgA]
      (setName emptyNames (.str "@a") (.str "Alice")) (.str "@a") (.str "Alice")
      rfl rfl (by
        intro e' he' p hp
        have he'' : e' = evMsgA := by simpa using he'
        subst he''
        simp only [show memberWrite evMsgA = none from rfl] at hp
        exact Option.noConfusion hp)
  · exact C5_display_name_resolution.2.2 [evMsgA] emptyNames [msgALone] msgALone
      rfl rfl (by simp) (by
        intro e' he' p hp
        have he'' : e' = evMsgA := by simpa using he'
        subst he''
        simp only [show memberWrite evMsgA = none from rfl] at hp
        exact Option.noConfusion hp)

theorem eqStr_true_iff (t : J) (s : String) : t.eqStr s = true ↔ t = .str s := by
  cases t <;> simp [J.eqStr]

theorem pass1Step_skip (acc : DNames) (e : J) (t : J)
    (hjt : jget e "type" .null = .ok t)
    (hmem : t.eqStr "m.room.member" = false) :
    pass1Step acc e = .ok acc := by
  simp [pass1Step, hjt, hmem]

theorem pass1_skip_mid (acc : DNames) (l₁ : List J) (e : J) (l₂ : List J)
    (t : J) (hjt : jget e "type" .null = .ok t)
    (hmem : t.eqStr "m.room.member" = false) :
    pass1 acc (l₁ ++ e :: l₂) = pass1 acc (l₁ ++ l₂) := by
  rw [pass1_append, pass1_append]
  cases h1 : pass1 acc l₁ with
  | error er => rfl
  | ok f₁ =>
    dsimp only
    conv_lhs => rw [pass1]
    rw [pass1Step_skip f₁ e t hjt hmem]

theorem pass2_skip_nonmessage (names : DNames) (acc : List Msg) (e : J)
    (rest : List J) (t : J) (hjt : jget e "type" .null = .ok t)
    (hmsg : t.eqStr "m.room.message" = false) :
    pass2 names acc (e :: rest) = pass2 names acc rest := by
  simp [pass2, hjt, hmsg]

theorem pass2_skip_failing (names : DNames) (acc : List Msg) (e : J)
    (rest : List J) (t : J) (er : PyErr)
    (hjt : jget e "type" .null = .ok t)
    (hmsg : t.eqStr "m.room.message" = true)
    (htb : tryBody names e = .error er) :
    pass2 names acc (e :: rest) = pass2 names acc rest := by
  simp [pass2, hjt, hmsg, htb]

/-- C6: an event whose type is neither m.room.message nor m.room.member
changes neither the display-name resolution nor the output (deleting it
from the batch changes nothing); and a message event whose try-block
processing fails is skipped alone — the formatted output of the batch
equals that of the batch without it, so the failure is never fatal to
the call. -/
theorem C6_event_filtering :
    (∀ (l₁ : List J) (e : J) (l₂ : List J) (t : J),
      jget e "type" .null = .ok t →
      t.eqStr "m.room.member" = false → t.eqStr "m.room.message" = false →
      (∀ acc, pass1 acc (l₁ ++ e :: l₂) = pass1 acc (l₁ ++ l₂)) ∧
      format_messages (l₁ ++ e :: l₂) = format_messages (l₁ ++ l₂)) ∧
    (∀ (l₁ : List J) (e : J) (l₂ : List J) (t : J) (names : DNames)
      (er : PyErr),
      jget e "type" .null = .ok t → t.eqStr "m.room.message" = true →
      pass1 emptyNames (l₁ ++ l₂) = .ok names → tryBody names e = .error er →
      format_messages (l₁ ++ e :: l₂) = format_messages (l₁ ++ l₂)) := by
  constructor
  · intro l₁ e l₂ t hjt hmem hmsg
    refine ⟨fun acc => pass1_skip_mid acc l₁ e l₂ t hjt hmem, ?_⟩
    unfold format_messages
    rw [pass1_skip_mid emptyNames l₁ e l₂ t hjt hmem]
    cases hp : pass1 emptyNames (l₁ ++ l₂) with
    | error er => rfl
    | ok names =>
      dsimp only
      rw [pass2_append, pass2_append]
      cases hq : pass2 names [] l₁ with
      | error er => rfl
      | ok o =>
        dsimp only
        exact pass2_skip_nonmessage names o e l₂ t hjt hmsg
  · intro l₁ e l₂ t names er hjt hmsg hp1 htb
    have ht : t = .str "m.room.message" := (eqStr_true_iff t _).mp hmsg
    have hmem : t.eqStr "m.room.member" = false := by subst ht; rfl
    unfold format_messages
    rw [pass1_skip_mid emptyNames l₁ e l₂ t hjt hmem, hp1]
    dsimp only
    rw [pass2_append, pass2_append]
    cases hq : pass2 names [] l₁ with
    | error er2 => rfl
    | ok o =>
      dsimp only
      exact pass2_skip_failing names o e l₂ t er hjt hmsg htb

/-- Witness for C6: a reaction event and a content-null message event
are each dropped without affecting the rest of the batch. -/
theorem C6_event_filtering_witness :
    jget evReaction "type" .null = .ok (.str "m.reaction") ∧
    format_messages [evMemberAlice, evReaction, evMsgA] =
      format_messages [evMemberAlice, evMsgA] ∧
    jget evBadContent "type" .null = .ok (.str "m.room.message") ∧
    pass1 emptyNames [evMemberAlice, evMsgA] =
      .ok (setName emptyNames (.str "@a") (.str "Alice")) ∧
    tryBody (setName emptyNames (.str "@a") (.str "Alice")) evBadContent =
      .error .attributeError ∧
    format_messages [evMemberAlice, evBadContent, evMsgA] =
      format_messages [evMemberAlice, evMsgA] := by
  refine ⟨rfl, ?_, rfl, rfl, rfl, ?_⟩
  · exact (C6_event_filtering.1 [evMemberAlice] evReaction [evMsgA]
      (.str "m.reaction") rfl rfl rfl).2
  · exact C6_event_filtering.2 [evMemberAlice] evBadContent [evMsgA]
      (.str "m.room.message") (setName emptyNames (.str "@a") (.str "Alice"))
      .attributeError rfl rfl rfl rfl

/-- C9: a message event with no sender field still yields a formatted
message whose sender and nickname are the literal "Unknown", and whose
display name is whatever the resolved mapping holds at the key
"Unknown" (absent unless some membership event used that literal
sender). -/
theorem C9_missing_sender (chunk : List J) (names : DNames)
    (msgs : List Msg) (m : Msg) (kvs : List (String × J))
    (hp1 : pass1 emptyNames chunk = .ok names)
    (hp2 : pass2 names [] chunk = .ok msgs)
    (hm : m ∈ msgs)
    (hraw : m.raw_event = .obj kvs)
    (hns : lookupLast kvs "sender" = none) :
    m.sender = .str "Unknown" ∧ m.nickname = .str "Unknown" ∧
    m.display_name = (names (.str "Unknown")).getD .null := by
  obtain ⟨e, he, t, hjt, ht, htb⟩ := pass2_mem names chunk msgs m hp2 hm
  obtain ⟨sv, dnv, cv, bv, rtv, irv, rlv, rev, tsv, eiv, ehv, rhv,
    h1, h2, h3, h4, h5, h6, h7, h8, h9, h10, h11, h12, rfl⟩ :=
    tryBody_ok_inv names e m htb
  have he' : e = .obj kvs := hraw
  subst he'
  have hsv : sv = .str "Unknown" := by
    simp only [jget, hns, Option.getD] at h1
    injection h1 with h1'
    exact h1'.symm
  subst hsv
  have hdn : dnv = (names (.str "Unknown")).getD .null := by
    simp only [dgetName, J.hashable, if_pos] at h2
    injection h2 with h2'
    exact h2'.symm
  exact ⟨rfl, rfl, hdn⟩

/-- Witness for C9 at the concrete no-sender event. -/
theorem C9_missing_sender_witness :
    pass1 emptyNames [evNoSender] = .ok emptyNames ∧
    pass2 emptyNames [] [evNoSender] = .ok [msgNoSender] ∧
    (msgNoSender.sender = .str "Unknown" ∧
     msgNoSender.nickname = .str "Unknown" ∧
     msgNoSender.display_name = (emptyNames (.str "Unknown")).getD .null) :=
  ⟨rfl, rfl, C9_missing_sender [evNoSender] emptyNames [msgNoSender]
    msgNoSender
    [("type", .str "m.room.message"), ("content", .obj [("body", .str "x")])]
    rfl rfl (List.mem_singleton.mpr rfl) rfl rfl⟩

/-- C10: a message event with no origin_server_ts yields timestamp 0,
and in the sorted output a zero-timestamp message is never preceded by
a message with a positive timestamp. -/
theorem C10_missing_timestamp :
    (∀ names e m kvs, tryBody names e = .ok m → e = .obj kvs →
      lookupLast kvs "origin_server_ts" = none → m.timestamp = .num 0) ∧
    (∀ chunk out l₁ m l₂, get_messages chunk = .ok out →
      out = l₁ ++ m :: l₂ → m.timestamp = .num 0 →
      ∀ m' ∈ l₁, ∀ p : Int, m'.timestamp = .num p → p ≤ 0) := by
  constructor
  · intro names e m kvs htb he hnt
    obtain ⟨sv, dnv, cv, bv, rtv, irv, rlv, rev, tsv, eiv, ehv, rhv,
      h1, h2, h3, h4, h5, h6, h7, h8, h9, h10, h11, h12, rfl⟩ :=
      tryBody_ok_inv names e m htb
    subst he
    have hts : tsv = .num 0 := by
      simp only [jget, hnt, Option.getD] at h9
      injection h9 with h9'
      exact h9'.symm
    exact hts
  · intro chunk out l₁ m l₂ hg hout hts m' hm' p hp
    obtain ⟨msgs, hf, hs, rfl⟩ := get_messages_ok chunk out hg
    have hpw : (insSort msgLe msgs).Pairwise (fun a b => msgLe a b = true) :=
      insSort_pairwise msgLe msgLe_total msgLe_trans msgs
    rw [hout] at hpw
    have hrel : msgLe m' m = true :=
      (List.pairwise_append.mp hpw).2.2 m' hm' m (List.mem_cons_self m l₂)
    unfold msgLe at hrel
    rw [hp, hts] at hrel
    have h' := (tsLe_iff (.num p) (.num 0)).mp hrel
    simp [keyClass, numVal] at h'
    omega

/-- Witness for C10 at a batch whose second event has no timestamp. -/
theorem C10_missing_timestamp_witness :
    tryBody emptyNames evNoTs = .ok msgNoTs ∧
    msgNoTs.timestamp = .num 0 ∧
    get_messages [evMsgA, evNoTs] = .ok [msgNoTs, msgALone] ∧
    (∀ m' ∈ ([] : List Msg), ∀ p : Int, m'.timestamp = .num p → p ≤ 0) :=
  ⟨rfl, C10_missing_timestamp.1 emptyNames evNoTs msgNoTs
      [("type", .str "m.room.message"), ("sender", .str "@c"),
       ("content", .obj [("body", .str "late")])] rfl rfl rfl,
    rfl, C10_missing_timestamp.2 [evMsgA, evNoTs] [msgNoTs, msgALone] []
      msgNoTs [msgALone] rfl rfl rfl⟩
